import Mathlib

/-!
Shallow embedding of the subscription-tracker core logic:

* billing-date roll-forward (`src/unnamed/part_004`, date helpers from the
  `date-fns` library restricted to day granularity),
* name normalisation, fallback-icon hashing (`src/src/lib/provider-utils.ts`),
* provider catalog search (`src/unnamed/part_007`),
* provider-linkage computation on the write paths
  (`src/src/lib/subscription-service.ts`, `src/unnamed/part_004`,
  `src/unnamed/part_005`).

Conventions: JavaScript `Date` values are modelled at day granularity by
`CalDate` (the code only ever compares dates after `startOfDay` and only
ever parses / prints calendar dates, so time-of-day is irrelevant to every
property proved here).  JavaScript strings are modelled by Lean `String`;
where the code depends on UTF-16 units (`charCodeAt`, `.length`) the UTF-16
encoding is computed explicitly.  `Math.random()` draws are modelled by an
explicit `rand : Nat` parameter, following the spec's own design note that
the random source should be an injected dependency.
-/

namespace SubscriptionTracker

/-- Calendar date at day granularity (proleptic Gregorian, as used by the
JavaScript `Date` for the range of interest). -/
structure CalDate where
  y : Nat
  m : Nat
  d : Nat
deriving DecidableEq

/-- Day-granularity strict order: models `date-fns`'s `isBefore` on dates that
are all at local midnight (every date handled by the roll-forward code is,
because `parseISO` of a calendar date and `startOfDay` both yield midnight and
`addMonths`/`addYears` preserve the time of day). -/
def beforeDay (a b : CalDate) : Prop :=
  a.y < b.y ∨ (a.y = b.y ∧ (a.m < b.m ∨ (a.m = b.m ∧ a.d < b.d)))

instance (a b : CalDate) : Decidable (beforeDay a b) := by
  unfold beforeDay; infer_instance

/-- Gregorian leap-year rule, as implemented by the JavaScript `Date`. -/
def isLeapYear (y : Nat) : Bool :=
  y % 4 == 0 && (y % 100 != 0 || y % 400 == 0)

/-- Number of days in a month (month numbered 1–12; any out-of-range month
defaults to 31 and is unreachable from parsed dates). -/
def daysInMonth (y : Nat) (m : Nat) : Nat :=
  match m with
  | 2 => if isLeapYear y then 29 else 28
  | 4 => 30
  | 6 => 30
  | 9 => 30
  | 11 => 30
  | _ => 31

/-- Model of `date-fns` `addMonths(date, 1)`: step to the next calendar month
and clamp the day-of-month to the length of the target month. -/
def addMonths1 (dt : CalDate) : CalDate :=
  if dt.m < 12 then ⟨dt.y, dt.m + 1, min dt.d (daysInMonth dt.y (dt.m + 1))⟩
  else ⟨dt.y + 1, 1, min dt.d (daysInMonth (dt.y + 1) 1)⟩

/-- Model of `date-fns` `addYears(date, 1)`: step to the next year and clamp
the day-of-month (Feb 29 of a leap year becomes Feb 28). -/
def addYears1 (dt : CalDate) : CalDate :=
  ⟨dt.y + 1, dt.m, min dt.d (daysInMonth (dt.y + 1) dt.m)⟩

/-- `BillingCadence` from `src/src/types/subscription.ts`:
`'Monthly' | 'Yearly'`. -/
inductive BillingCadence where
  | Monthly
  | Yearly
deriving DecidableEq

/-- The increment chosen by `rollForwardNextBillingDate`:
`billingCycle === 'Yearly' ? addYears : addMonths`. -/
def incFor (billingCycle : BillingCadence) : CalDate → CalDate :=
  match billingCycle with
  | BillingCadence.Yearly => addYears1
  | BillingCadence.Monthly => addMonths1

/-- Decimal digit character (only ever applied to values `< 10`). -/
def digitChar : Nat → Char
  | 0 => '0'
  | 1 => '1'
  | 2 => '2'
  | 3 => '3'
  | 4 => '4'
  | 5 => '5'
  | 6 => '6'
  | 7 => '7'
  | 8 => '8'
  | 9 => '9'
  | _ + 10 => '0'

/-- Numeric value of a decimal digit character. -/
def digitVal (c : Char) : Nat := c.toNat - 48

/-- Test for an ASCII decimal digit. -/
def isDigitChar (c : Char) : Bool :=
  decide (48 ≤ c.toNat) && decide (c.toNat ≤ 57)

/-- Decimal digit list of a natural number, fuelled so that the recursion is
structural; `natChars` supplies enough fuel for any input. -/
def natCharsFuel : Nat → Nat → List Char
  | 0, _ => []
  | fuel + 1, n => if n < 10 then [digitChar n] else natCharsFuel fuel (n / 10) ++ [digitChar (n % 10)]

/-- Decimal digit list of a natural number (no padding). -/
def natChars (n : Nat) : List Char := natCharsFuel (n + 1) n

/-- Zero-pad to four digits, as the `date-fns` format token `yyyy` does
(years of five or more digits print all their digits). -/
def pad4 (n : Nat) : List Char :=
  if n < 10000 then
    [digitChar (n / 1000), digitChar (n / 100 % 10), digitChar (n / 10 % 10), digitChar (n % 10)]
  else natChars n

/-- Zero-pad to two digits, as the `date-fns` format tokens `MM` / `dd` do. -/
def pad2 (n : Nat) : List Char :=
  if n < 100 then [digitChar (n / 10), digitChar (n % 10)] else natChars n

/-- Model of `format(date, 'yyyy-MM-dd')` from `date-fns`. -/
def formatISO (dt : CalDate) : String :=
  String.mk (pad4 dt.y ++ '-' :: (pad2 dt.m ++ '-' :: pad2 dt.d))

/-- Model of the `parseDate` helper of `src/unnamed/part_004`, restricted to
the calendar-date form `YYYY-MM-DD` with a valid month and day-of-month — the
only format the application itself ever writes (it is what
`format(_, 'yyyy-MM-dd')` produces).  `parseISO`'s other ISO-8601 inputs and
the lenient `new Date(value)` fallback accept further date-like strings that
are outside this model; the empty string is rejected (`if (!value) null`) as
are malformed strings (both parsers yield `Invalid Date` on them). -/
def parseDate (s : String) : Option CalDate :=
  match s.data with
  | [y1, y2, y3, y4, s1, m1, m2, s2, d1, d2] =>
    if s1 = '-' ∧ s2 = '-' ∧ isDigitChar y1 = true ∧ isDigitChar y2 = true ∧
        isDigitChar y3 = true ∧ isDigitChar y4 = true ∧ isDigitChar m1 = true ∧
        isDigitChar m2 = true ∧ isDigitChar d1 = true ∧ isDigitChar d2 = true then
      let y := ((digitVal y1 * 10 + digitVal y2) * 10 + digitVal y3) * 10 + digitVal y4
      let m := digitVal m1 * 10 + digitVal m2
      let d := digitVal d1 * 10 + digitVal d2
      if 1 ≤ m ∧ m ≤ 12 ∧ 1 ≤ d ∧ d ≤ daysInMonth y m then some ⟨y, m, d⟩ else none
    else none
  | _ => none

/-- `MAX_ITERATIONS` from `src/unnamed/part_004`. -/
def MAX_ITERATIONS : Nat := 240

/-- The advancement `while` loop of `rollForwardNextBillingDate`:
`while (isBefore(candidate, todayStart) && iterations < MAX_ITERATIONS)`.
The source counts `iterations` upward from 0; here `fuel` is the number of
iterations still allowed (`MAX_ITERATIONS - iterations`), which makes the
recursion structural. -/
def rollLoop (inc : CalDate → CalDate) (todayStart : CalDate) : Nat → CalDate → CalDate
  | 0, c => c
  | fuel + 1, c =>
    if beforeDay c todayStart then rollLoop inc todayStart fuel (inc c) else c

/-- `rollForwardNextBillingDate` from `src/unnamed/part_004`.  `today` is
modelled at day granularity, so the source's `startOfDay(today)` is the
identity here. -/
def rollForwardNextBillingDate (nextBillingDate : String)
    (billingCycle : BillingCadence) (today : CalDate) : Option String :=
  match parseDate nextBillingDate with
  | none => none
  | some parsed =>
    some (formatISO (rollLoop (incFor billingCycle) today MAX_ITERATIONS parsed))

/-- `FallbackIconKey` from `src/src/types/subscription.ts`. -/
inductive FallbackIconKey where
  | sparkles
  | globe
  | rocket
  | wallet
  | calendar
deriving DecidableEq

/-- `Subscription` from `src/src/types/subscription.ts`; optional / nullable
fields are modelled as `Option`.  The numeric `cost` takes part in no claim
and is modelled as `Int`. -/
structure Subscription where
  id : String
  name : String
  cost : Int
  billingCycle : BillingCadence
  nextBillingDate : String
  currency : Option String
  providerId : Option String
  providerSlug : Option String
  providerName : Option String
  logoPath : Option String
  fallbackIconKey : Option FallbackIconKey
  normalizedName : Option String
deriving DecidableEq

/-- `autoAdvanceSubscription` from `src/unnamed/part_004`.  The source's
result object `{ subscription, changed }` is modelled as a pair.  The guard
`!rolled || rolled === subscription.nextBillingDate` is falsy both for `null`
and for the empty string, so the empty-string case is kept explicit (it is in
fact unreachable: `formatISO` never returns `""`). -/
def autoAdvanceSubscription (subscription : Subscription) (today : CalDate) :
    Subscription × Bool :=
  match rollForwardNextBillingDate subscription.nextBillingDate
      subscription.billingCycle today with
  | none => (subscription, false)
  | some rolled =>
    if rolled = "" ∨ rolled = subscription.nextBillingDate then (subscription, false)
    else ({ subscription with nextBillingDate := rolled }, true)

/-- Model of `String.prototype.trim`: remove leading and trailing whitespace
(modulo the exact whitespace set, which is immaterial to every claim). -/
def trimList (l : List Char) : List Char :=
  ((l.dropWhile Char.isWhitespace).reverse.dropWhile Char.isWhitespace).reverse

/-- ASCII lowering, modelling `String.prototype.toLowerCase` on the ASCII
range (non-ASCII letters never fall in `[a-z0-9]`, so after the slug
replacement step they behave identically whether lowered or not). -/
def lowerChar (c : Char) : Char :=
  if 'A' ≤ c ∧ c ≤ 'Z' then Char.ofNat (c.toNat + 32) else c

/-- Membership in the slug alphabet `[a-z0-9]`. -/
def isLowerAlnum (c : Char) : Bool :=
  ('a' ≤ c && c ≤ 'z') || ('0' ≤ c && c ≤ '9')

/-- Collapse each run of consecutive dashes to a single dash.  Replacing every
non-alphanumeric character by `'-'` and then collapsing dash runs is exactly
the effect of the source's `replace(/[^a-z0-9]+/g, '-')` (each maximal run of
excluded characters becomes one dash). -/
def squeeze : List Char → List Char
  | [] => []
  | [c] => [c]
  | a :: b :: t =>
    if a = '-' ∧ b = '-' then squeeze (b :: t) else a :: squeeze (b :: t)

/-- Remove the leading dash run, half of `replace(/^-+|-+$/g, '')`. -/
def stripLead (l : List Char) : List Char := l.dropWhile (fun c => c == '-')

/-- Remove the trailing dash run, the other half of `replace(/^-+|-+$/g, '')`. -/
def stripTrail (l : List Char) : List Char :=
  (l.reverse.dropWhile (fun c => c == '-')).reverse

/-- `normalizeSubscriptionName` from `src/src/lib/provider-utils.ts`:
trim, lowercase, replace every `[^a-z0-9]+` run by a dash, strip the
leading/trailing dashes. -/
def normalizeSubscriptionName (name : String) : String :=
  String.mk (stripTrail (stripLead (squeeze
    (((trimList name.data).map lowerChar).map
      (fun c => if isLowerAlnum c then c else '-')))))

/-- `FALLBACK_ICON_KEYS` from `src/src/lib/provider-utils.ts`. -/
def FALLBACK_ICON_KEYS : List FallbackIconKey :=
  [FallbackIconKey.sparkles, FallbackIconKey.globe, FallbackIconKey.rocket,
    FallbackIconKey.wallet, FallbackIconKey.calendar]

/-- UTF-16 code units of a character, as JavaScript's `charCodeAt` walks
them (a surrogate pair for code points beyond the BMP). -/
def utf16Units (c : Char) : List Nat :=
  if c.toNat < 65536 then [c.toNat]
  else [55296 + (c.toNat - 65536) / 1024, 56320 + (c.toNat - 65536) % 1024]

/-- The seeded hash of `pickFallbackIconKey`:
`hash = (hash * 31 + seed.charCodeAt(i)) % 2147483647` over the UTF-16 units
of the seed.  The accumulator is always non-negative and stays far below
`Number.MAX_SAFE_INTEGER`, so `Nat` models it exactly and the source's
`Math.abs` is the identity. -/
def hashSeed (s : String) : Nat :=
  (s.data.flatMap utf16Units).foldl (fun h u => (h * 31 + u) % 2147483647) 0

/-- `pickFallbackIconKey` from `src/src/lib/provider-utils.ts`.  The seed is
optional; the guard `if (!seed)` is also taken for the empty string, which is
falsy in JavaScript.  `rand` models the `Math.floor(Math.random() * 5)` draw
(as `rand % 5`); the list indexings are total because both indices are
`< 5 = FALLBACK_ICON_KEYS.length`. -/
def pickFallbackIconKey (seed : Option String) (rand : Nat) : FallbackIconKey :=
  match seed with
  | none => FALLBACK_ICON_KEYS.getD (rand % 5) FallbackIconKey.sparkles
  | some s =>
    if s = "" then FALLBACK_ICON_KEYS.getD (rand % 5) FallbackIconKey.sparkles
    else FALLBACK_ICON_KEYS.getD (hashSeed s % 5) FallbackIconKey.sparkles

/-- JavaScript's `String.prototype.length`: the number of UTF-16 code units. -/
def utf16Length (s : String) : Nat :=
  (s.data.map (fun c => if c.toNat < 65536 then 1 else 2)).sum

/-- List version of `String.prototype.startsWith` (true on the empty
pattern, as in JavaScript). -/
def startsWithL : List Char → List Char → Bool
  | [], _ => true
  | _ :: _, [] => false
  | a :: p, b :: l => a == b && startsWithL p l

/-- List version of `String.prototype.includes` (true on the empty pattern,
as in JavaScript). -/
def containsSub : List Char → List Char → Bool
  | p, [] => p.isEmpty
  | p, b :: t => startsWithL p (b :: t) || containsSub p t

/-- `SubscriptionProvider` from `src/src/types/subscription.ts`. -/
structure SubscriptionProvider where
  id : String
  slug : String
  displayName : String
  logoPath : String
  lastVerifiedAt : Option String
  notes : Option String
deriving DecidableEq

/-- `ProviderSearchResult` from `src/unnamed/part_007`
(`SubscriptionProvider & { score: number }`; the spread of the provider
fields is modelled as a `provider` field next to the score). -/
structure ProviderSearchResult where
  provider : SubscriptionProvider
  score : Nat
deriving DecidableEq

/-- `MIN_QUERY_LENGTH` from `src/unnamed/part_007`. -/
def MIN_QUERY_LENGTH : Nat := 2

/-- The per-entry score computed inside `useProviderCatalog.search`
(`src/unnamed/part_007`, lines 83–102).  The `normalizedQuery ≠ []` guards
model the JavaScript truthiness tests `normalizedQuery && …`: an empty
normalised query disables rules 2, 3, 4 and 6. -/
def scoreEntry (provider : SubscriptionProvider) (query : String) : Nat :=
  let normalizedQuery := (normalizeSubscriptionName query).data
  let lowerQuery := (trimList query.data).map lowerChar
  let normalizedName := (normalizeSubscriptionName provider.displayName).data
  if (trimList provider.displayName.data).map lowerChar = lowerQuery then 120
  else if normalizedQuery ≠ [] ∧ provider.slug.data = normalizedQuery then 100
  else if normalizedQuery ≠ [] ∧ startsWithL normalizedQuery provider.slug.data then 80
  else if normalizedQuery ≠ [] ∧ startsWithL normalizedQuery normalizedName then 70
  else if containsSub lowerQuery (provider.displayName.data.map lowerChar) then 50
  else if normalizedQuery ≠ [] ∧ containsSub normalizedQuery provider.slug.data then 40
  else 0

/-- Stable descending insertion by score: an element is placed before every
element of strictly smaller score and after every element of greater-or-equal
score.  For a total preorder a stable sort's output is unique, so this models
the (stable, ES2019+) `Array.prototype.sort((a, b) => b.score - a.score)` of
the source exactly. -/
def insertScored (a : ProviderSearchResult) :
    List ProviderSearchResult → List ProviderSearchResult
  | [] => [a]
  | b :: t => if b.score ≤ a.score then a :: b :: t else b :: insertScored a t

/-- Stable descending sort by score (insertion sort; see `insertScored`). -/
def sortScored : List ProviderSearchResult → List ProviderSearchResult
  | [] => []
  | a :: t => insertScored a (sortScored t)

/-- `useProviderCatalog.search` from `src/unnamed/part_007` (the pure part:
the hook's `providers` state is the `providers` argument).  Early exit on a
falsy or too-short query (`query.length` counts UTF-16 units), then score,
drop zero scores, sort stably by descending score and keep the first five. -/
def search (providers : List SubscriptionProvider) (query : String) :
    List ProviderSearchResult :=
  if query = "" ∨ utf16Length query < MIN_QUERY_LENGTH then []
  else
    ((sortScored (((providers.map
        (fun p => ProviderSearchResult.mk p (scoreEntry p query))).filter
          (fun e => 0 < e.score)))).take 5)

/-- The provider-linkage computation shared verbatim by `createSubscription`
(`src/src/lib/subscription-service.ts`, lines 149–168) and
`updateSubscription` (lines 228–247): given the incoming subscription's
`providerId` and `fallbackIconKey`, the result of the external
`fetchProviderBySlug(normalizedName)` lookup and the normalised name, compute
the `(provider_id, fallback_icon_key)` pair written to storage. -/
def resolveProviderLinkage (providerId : Option String)
    (fallbackIconKey : Option FallbackIconKey)
    (lookup : Option SubscriptionProvider) (normalizedName : String)
    (rand : Nat) : Option String × Option FallbackIconKey :=
  match providerId with
  | some pid => (some pid, none)
  | none =>
    match lookup with
    | some provider => (some provider.id, none)
    | none =>
      match fallbackIconKey with
      | some k => (none, some k)
      | none => (none, some (pickFallbackIconKey (some normalizedName) rand))

/-- The `(provider_id, fallback_icon_key)` pair written by
`assignProviderToSubscription` (`src/unnamed/part_004`, lines 246–266):
`providerId ? null : options?.fallbackIconKey ?? pickFallbackIconKey(subscriptionId)`.
`options` is an optional record whose `fallbackIconKey` field is itself
nullable, hence the nested `Option`; `??` falls through on both `null` and
`undefined`. -/
def assignProviderLinkage (subscriptionId : String) (providerId : Option String)
    (options : Option (Option FallbackIconKey)) (rand : Nat) :
    Option String × Option FallbackIconKey :=
  match providerId with
  | some pid => (some pid, none)
  | none =>
    (none, some (match options with
      | some (some k) => k
      | _ => pickFallbackIconKey (some subscriptionId) rand))

/-- The `(providerId, fallbackIconKey)` pair computed by the form submit
handler of `src/unnamed/part_005` (lines 488–496) and written into the new
subscription object in the unauthenticated branch:
`fallbackIconKey = providerSelection ? null : pickFallbackIconKey(normalizedName)`
and `providerId = providerSelection?.id ?? null`. -/
def submitProviderLinkage (providerSelection : Option SubscriptionProvider)
    (normalizedName : String) (rand : Nat) :
    Option String × Option FallbackIconKey :=
  match providerSelection with
  | some p => (some p.id, none)
  | none => (none, some (pickFallbackIconKey (some normalizedName) rand))

/-- Absence of two consecutive dashes, used to state the slug-shape claim. -/
def noDoubleDash : List Char → Prop
  | a :: b :: t => ¬(a = '-' ∧ b = '-') ∧ noDoubleDash (b :: t)
  | _ => True

/-- The per-entry score as the (corrected) specification words it: the first
applicable rule in strict priority order, where rules 2, 3, 4 and 6 apply
only when the normalised query is nonempty, and rule 1 compares the trimmed
query with the trimmed display name case-insensitively.  Stated independently
of `scoreEntry` so that the two can be compared. -/
def specScoreCorrected (provider : SubscriptionProvider) (query : String) : Nat :=
  if (trimList provider.displayName.data).map lowerChar = (trimList query.data).map lowerChar
    then 120
  else if (normalizeSubscriptionName query).data ≠ [] ∧
      provider.slug.data = (normalizeSubscriptionName query).data then 100
  else if (normalizeSubscriptionName query).data ≠ [] ∧
      startsWithL (normalizeSubscriptionName query).data provider.slug.data then 80
  else if (normalizeSubscriptionName query).data ≠ [] ∧
      startsWithL (normalizeSubscriptionName query).data
        (normalizeSubscriptionName provider.displayName).data then 70
  else if containsSub ((trimList query.data).map lowerChar)
      (provider.displayName.data.map lowerChar) then 50
  else if (normalizeSubscriptionName query).data ≠ [] ∧
      containsSub (normalizeSubscriptionName query).data provider.slug.data then 40
  else 0

/-- The per-entry score exactly as the frozen claim words it: no
nonempty-normalised-query guards, and rule 1 compares the trimmed query with
the display name as stored (untrimmed).  Used only to exhibit where the claim
diverges from the code. -/
def specScoreAsWritten (provider : SubscriptionProvider) (query : String) : Nat :=
  if (trimList query.data).map lowerChar = provider.displayName.data.map lowerChar then 120
  else if (normalizeSubscriptionName query).data = provider.slug.data then 100
  else if startsWithL (normalizeSubscriptionName query).data provider.slug.data then 80
  else if startsWithL (normalizeSubscriptionName query).data
      (normalizeSubscriptionName provider.displayName).data then 70
  else if containsSub ((trimList query.data).map lowerChar)
      (provider.displayName.data.map lowerChar) then 50
  else if containsSub (normalizeSubscriptionName query).data provider.slug.data then 40
  else 0

/-! ### Helper lemmas about the date model -/

set_option maxRecDepth 8000

theorem daysInMonth_le_31 (y m : Nat) : daysInMonth y m ≤ 31 := by
  unfold daysInMonth
  split
  · split <;> omega
  all_goals omega

theorem daysInMonth_pos (y m : Nat) : 1 ≤ daysInMonth y m := by
  unfold daysInMonth
  split
  · split <;> omega
  all_goals omega

/-- The advancement loop, characterised through function iteration: the loop
performs some number `n ≤ fuel` of increments, every iterate it stepped past
was strictly before today, and if the fuel was not exhausted the final
candidate is no longer strictly before today. -/
theorem rollLoop_iterate (inc : CalDate → CalDate) (t : CalDate) :
    ∀ (fuel : Nat) (c : CalDate), ∃ n, n ≤ fuel ∧
      rollLoop inc t fuel c = inc^[n] c ∧
      (∀ j, j < n → beforeDay (inc^[j] c) t) ∧
      (n < fuel → ¬ beforeDay (inc^[n] c) t) := by
  intro fuel
  induction fuel with
  | zero =>
    intro c
    exact ⟨0, Nat.le_refl 0, rfl, fun j hj => absurd hj (Nat.not_lt_zero j),
      fun h => absurd h (Nat.lt_irrefl 0)⟩
  | succ fuel ih =>
    intro c
    by_cases h : beforeDay c t
    · obtain ⟨n, hn, heq, hall, hcap⟩ := ih (inc c)
      refine ⟨n + 1, Nat.succ_le_succ hn, ?_, ?_, ?_⟩
      · rw [show rollLoop inc t (fuel + 1) c = rollLoop inc t fuel (inc c) by
          simp [rollLoop, h]]
        rw [heq, Function.iterate_succ_apply]
      · intro j hj
        cases j with
        | zero => simpa using h
        | succ j' =>
          have := hall j' (Nat.lt_of_succ_lt_succ hj)
          simpa [Function.iterate_succ_apply] using this
      · intro hlt
        have := hcap (Nat.lt_of_succ_lt_succ hlt)
        simpa [Function.iterate_succ_apply] using this
    · refine ⟨0, Nat.zero_le _, by simp [rollLoop, h], ?_, fun _ => by simpa using h⟩
      intro j hj
      exact absurd hj (Nat.not_lt_zero j)

/-- If every candidate the loop can reach stays strictly before today, the
loop exhausts its fuel and returns the `fuel`-th iterate. -/
theorem rollLoop_all_before (inc : CalDate → CalDate) (t : CalDate) :
    ∀ (fuel : Nat) (c : CalDate), (∀ j, j < fuel → beforeDay (inc^[j] c) t) →
      rollLoop inc t fuel c = inc^[fuel] c := by
  intro fuel
  induction fuel with
  | zero => intro c _; rfl
  | succ fuel ih =>
    intro c hall
    have h0 : beforeDay c t := by simpa using hall 0 (Nat.succ_pos fuel)
    rw [show rollLoop inc t (fuel + 1) c = rollLoop inc t fuel (inc c) by
      simp [rollLoop, h0]]
    rw [ih (inc c) ?_, Function.iterate_succ_apply]
    intro j hj
    have := hall (j + 1) (Nat.succ_lt_succ hj)
    simpa [Function.iterate_succ_apply] using this

/-- A candidate already on or past today is returned unchanged, whatever the
fuel. -/
theorem rollLoop_not_before (inc : CalDate → CalDate) (t : CalDate)
    (fuel : Nat) (c : CalDate) (h : ¬ beforeDay c t) :
    rollLoop inc t fuel c = c := by
  cases fuel with
  | zero => rfl
  | succ fuel => simp [rollLoop, h]

/-! ### Digit and serialisation lemmas -/

theorem char_eq_of_toNat {a b : Char} (h : a.toNat = b.toNat) : a = b :=
  Char.eq_of_val_eq (UInt32.ext h)

theorem isDigitChar_bounds {c : Char} (h : isDigitChar c = true) :
    48 ≤ c.toNat ∧ c.toNat ≤ 57 := by
  have := h
  simp only [isDigitChar, Bool.and_eq_true, decide_eq_true_eq] at this
  exact this

theorem digitVal_le_9 {c : Char} (h : isDigitChar c = true) : digitVal c ≤ 9 := by
  obtain ⟨h1, h2⟩ := isDigitChar_bounds h
  unfold digitVal
  omega

theorem digitChar_digitVal {c : Char} (h : isDigitChar c = true) :
    digitChar (digitVal c) = c := by
  obtain ⟨h1, h2⟩ := isDigitChar_bounds h
  unfold digitVal
  have h58 : c.toNat = 48 ∨ c.toNat = 49 ∨ c.toNat = 50 ∨ c.toNat = 51 ∨
      c.toNat = 52 ∨ c.toNat = 53 ∨ c.toNat = 54 ∨ c.toNat = 55 ∨
      c.toNat = 56 ∨ c.toNat = 57 := by omega
  rcases h58 with h'|h'|h'|h'|h'|h'|h'|h'|h'|h'
  · have e : c = '0' := char_eq_of_toNat (h'.trans (by decide)); subst e; decide
  · have e : c = '1' := char_eq_of_toNat (h'.trans (by decide)); subst e; decide
  · have e : c = '2' := char_eq_of_toNat (h'.trans (by decide)); subst e; decide
  · have e : c = '3' := char_eq_of_toNat (h'.trans (by decide)); subst e; decide
  · have e : c = '4' := char_eq_of_toNat (h'.trans (by decide)); subst e; decide
  · have e : c = '5' := char_eq_of_toNat (h'.trans (by decide)); subst e; decide
  · have e : c = '6' := char_eq_of_toNat (h'.trans (by decide)); subst e; decide
  · have e : c = '7' := char_eq_of_toNat (h'.trans (by decide)); subst e; decide
  · have e : c = '8' := char_eq_of_toNat (h'.trans (by decide)); subst e; decide
  · have e : c = '9' := char_eq_of_toNat (h'.trans (by decide)); subst e; decide

theorem digit_roundtrip : ∀ k, k < 10 →
    isDigitChar (digitChar k) = true ∧ digitVal (digitChar k) = k := by decide

theorem natCharsFuel_irrel : ∀ (f1 : Nat) (f2 : Nat) (n : Nat), n < f1 → n < f2 →
    natCharsFuel f1 n = natCharsFuel f2 n := by
  intro f1
  induction f1 with
  | zero => intro f2 n h1 _; exact absurd h1 (Nat.not_lt_zero n)
  | succ f1 ih =>
    intro f2 n h1 h2
    cases f2 with
    | zero => exact absurd h2 (Nat.not_lt_zero n)
    | succ f2 =>
      by_cases h : n < 10
      · simp [natCharsFuel, h]
      · have hd : n / 10 < n := Nat.div_lt_self (by omega) (by omega)
        simp only [natCharsFuel, if_neg h]
        rw [ih f2 (n / 10) (by omega) (by omega)]

theorem natChars_step (n : Nat) (h : 10 ≤ n) :
    natChars n = natChars (n / 10) ++ [digitChar (n % 10)] := by
  have hd : n / 10 < n := Nat.div_lt_self (by omega) (by omega)
  unfold natChars
  rw [show natCharsFuel (n + 1) n =
      natCharsFuel n (n / 10) ++ [digitChar (n % 10)] by
    simp [natCharsFuel, Nat.not_lt.mpr h]]
  rw [natCharsFuel_irrel n (n / 10 + 1) (n / 10) (by omega) (by omega)]

theorem natChars_length_ge (k : Nat) : ∀ n, 10 ^ k ≤ n →
    k + 1 ≤ (natChars n).length := by
  induction k with
  | zero =>
    intro n _
    by_cases h10 : n < 10
    · simp [natChars, natCharsFuel, h10]
    · rw [natChars_step n (by omega)]
      simp
  | succ k ih =>
    intro n h
    have hpow : 10 ^ k * 10 ≤ n := by
      calc 10 ^ k * 10 = 10 ^ (k + 1) := by ring
      _ ≤ n := h
    have h10 : 10 ≤ n := by
      have : 1 ≤ 10 ^ k := Nat.one_le_pow k 10 (by omega)
      nlinarith
    rw [natChars_step n h10, List.length_append]
    have hdiv : 10 ^ k ≤ n / 10 := (Nat.le_div_iff_mul_le (by omega)).mpr hpow
    have := ih (n / 10) hdiv
    simp only [List.length_cons, List.length_nil]
    omega

theorem formatISO_data (dt : CalDate) :
    (formatISO dt).data = pad4 dt.y ++ '-' :: (pad2 dt.m ++ '-' :: pad2 dt.d) := rfl

theorem parseDate_formatISO (dt : CalDate) (hy : dt.y < 10000) (hm1 : 1 ≤ dt.m)
    (hm2 : dt.m ≤ 12) (hd1 : 1 ≤ dt.d) (hd2 : dt.d ≤ daysInMonth dt.y dt.m) :
    parseDate (formatISO dt) = some dt := by
  obtain ⟨y, m, d⟩ := dt
  simp only at hy hm1 hm2 hd1 hd2
  have hm100 : m < 100 := by omega
  have hd100 : d < 100 := by have := daysInMonth_le_31 y m; omega
  have hfmt : (formatISO ⟨y, m, d⟩).data =
      [digitChar (y / 1000), digitChar (y / 100 % 10), digitChar (y / 10 % 10),
        digitChar (y % 10), '-', digitChar (m / 10), digitChar (m % 10), '-',
        digitChar (d / 10), digitChar (d % 10)] := by
    rw [formatISO_data]
    simp only [pad4, pad2, if_pos hy, if_pos hm100, if_pos hd100]
    rfl
  unfold parseDate
  rw [hfmt]
  dsimp only
  have r1 := digit_roundtrip (y / 1000) (by omega)
  have r2 := digit_roundtrip (y / 100 % 10) (by omega)
  have r3 := digit_roundtrip (y / 10 % 10) (by omega)
  have r4 := digit_roundtrip (y % 10) (by omega)
  have r5 := digit_roundtrip (m / 10) (by omega)
  have r6 := digit_roundtrip (m % 10) (by omega)
  have r7 := digit_roundtrip (d / 10) (by omega)
  have r8 := digit_roundtrip (d % 10) (by omega)
  rw [if_pos ⟨rfl, rfl, r1.1, r2.1, r3.1, r4.1, r5.1, r6.1, r7.1, r8.1⟩]
  simp only [r1.2, r2.2, r3.2, r4.2, r5.2, r6.2, r7.2, r8.2]
  have hy' : ((y / 1000 * 10 + y / 100 % 10) * 10 + y / 10 % 10) * 10 + y % 10 = y := by omega
  have hm' : m / 10 * 10 + m % 10 = m := by omega
  have hd' : d / 10 * 10 + d % 10 = d := by omega
  rw [hy', hm', hd', if_pos ⟨hm1, hm2, hd1, hd2⟩]

theorem formatISO_of_parseDate {s : String} {dt : CalDate} (h : parseDate s = some dt) :
    formatISO dt = s := by
  unfold parseDate at h
  split at h
  case h_2 => exact absurd h (by simp)
  case h_1 y1 y2 y3 y4 s1 m1 m2 s2 d1 d2 heq =>
    rcases Decidable.em (s1 = '-' ∧ s2 = '-' ∧ isDigitChar y1 = true ∧
        isDigitChar y2 = true ∧ isDigitChar y3 = true ∧ isDigitChar y4 = true ∧
        isDigitChar m1 = true ∧ isDigitChar m2 = true ∧ isDigitChar d1 = true ∧
        isDigitChar d2 = true) with hc1 | hc1
    case inr => rw [if_neg hc1] at h; exact absurd h (by simp)
    rw [if_pos hc1] at h
    obtain ⟨hs1, hs2, hy1, hy2, hy3, hy4, hm1, hm2, hd1, hd2⟩ := hc1
    subst hs1; subst hs2
    dsimp only at h
    split at h
    case isFalse => exact absurd h (by simp)
    case isTrue hrange =>
      injection h with h'
      subst h'
      apply String.ext
      rw [heq, formatISO_data]
      have vy1 := digitVal_le_9 hy1
      have vy2 := digitVal_le_9 hy2
      have vy3 := digitVal_le_9 hy3
      have vy4 := digitVal_le_9 hy4
      have vm1 := digitVal_le_9 hm1
      have vm2 := digitVal_le_9 hm2
      have vd1 := digitVal_le_9 hd1
      have vd2 := digitVal_le_9 hd2
      simp only [pad4, pad2, if_pos (show ((digitVal y1 * 10 + digitVal y2) * 10 + digitVal y3) * 10 + digitVal y4 < 10000 by omega),
        if_pos (show digitVal m1 * 10 + digitVal m2 < 100 by omega),
        if_pos (show digitVal d1 * 10 + digitVal d2 < 100 by omega)]
      have e1 : (((digitVal y1 * 10 + digitVal y2) * 10 + digitVal y3) * 10 + digitVal y4) / 1000 = digitVal y1 := by omega
      have e2 : (((digitVal y1 * 10 + digitVal y2) * 10 + digitVal y3) * 10 + digitVal y4) / 100 % 10 = digitVal y2 := by omega
      have e3 : (((digitVal y1 * 10 + digitVal y2) * 10 + digitVal y3) * 10 + digitVal y4) / 10 % 10 = digitVal y3 := by omega
      have e4 : (((digitVal y1 * 10 + digitVal y2) * 10 + digitVal y3) * 10 + digitVal y4) % 10 = digitVal y4 := by omega
      have e5 : (digitVal m1 * 10 + digitVal m2) / 10 = digitVal m1 := by omega
      have e6 : (digitVal m1 * 10 + digitVal m2) % 10 = digitVal m2 := by omega
      have e7 : (digitVal d1 * 10 + digitVal d2) / 10 = digitVal d1 := by omega
      have e8 : (digitVal d1 * 10 + digitVal d2) % 10 = digitVal d2 := by omega
      rw [e1, e2, e3, e4, e5, e6, e7, e8]
      rw [digitChar_digitVal hy1, digitChar_digitVal hy2, digitChar_digitVal hy3,
        digitChar_digitVal hy4, digitChar_digitVal hm1, digitChar_digitVal hm2,
        digitChar_digitVal hd1, digitChar_digitVal hd2]
      rfl

theorem formatISO_ne_empty (dt : CalDate) : formatISO dt ≠ "" := by
  intro h
  have := congrArg String.data h
  rw [formatISO_data] at this
  simp at this

theorem addYears1_iter_jan1 : ∀ n : Nat, addYears1^[n] ⟨1, 1, 1⟩ = ⟨1 + n, 1, 1⟩ := by
  intro n
  induction n with
  | zero => rfl
  | succ n ih =>
    rw [Function.iterate_succ_apply', ih]
    simp [addYears1, daysInMonth]
    omega

/-- C1 (amended to include the iteration cap): for every date string, cadence
and today, `rollForwardNextBillingDate` returns `null` exactly when the string
fails to parse; otherwise it returns the date obtained from the parsed date by
repeatedly adding one calendar month (Monthly) or one calendar year (Yearly)
while the candidate remains strictly before the start of today — bounded by
the 240-iteration cap, the last computed candidate being returned when the cap
is reached — serialized as `YYYY-MM-DD`. -/
theorem rollForward_none_iff_and_capped_loop (s : String) (cad : BillingCadence)
    (today : CalDate) :
    (rollForwardNextBillingDate s cad today = none ↔ parseDate s = none) ∧
    (∀ p, parseDate s = some p → ∃ n, n ≤ MAX_ITERATIONS ∧
      rollForwardNextBillingDate s cad today =
        some (formatISO ((incFor cad)^[n] p)) ∧
      (∀ j, j < n → beforeDay ((incFor cad)^[j] p) today) ∧
      (n < MAX_ITERATIONS → ¬ beforeDay ((incFor cad)^[n] p) today)) := by
  constructor
  · unfold rollForwardNextBillingDate
    cases h : parseDate s <;> simp
  · intro p hp
    have hcode : rollForwardNextBillingDate s cad today =
        some (formatISO (rollLoop (incFor cad) today MAX_ITERATIONS p)) := by
      unfold rollForwardNextBillingDate
      rw [hp]
    obtain ⟨n, hn, heq, hall, hcap⟩ := rollLoop_iterate (incFor cad) today MAX_ITERATIONS p
    exact ⟨n, hn, by rw [hcode, heq], hall, hcap⟩

/-- Counterexample to C1 as frozen (no iteration cap): on this input the code
returns `"0241-01-01"`, but no run of the claimed loop — which only stops once
the candidate is no longer strictly before the start of today — can return it:
every candidate whose serialization is `"0241-01-01"` is still strictly before
today `0242-01-01`. -/
theorem rollForward_uncapped_description_fails :
    parseDate "0001-01-01" = some ⟨1, 1, 1⟩ ∧
    rollForwardNextBillingDate "0001-01-01" BillingCadence.Yearly ⟨242, 1, 1⟩ =
      some "0241-01-01" ∧
    ¬ ∃ n, rollForwardNextBillingDate "0001-01-01" BillingCadence.Yearly ⟨242, 1, 1⟩ =
        some (formatISO ((incFor BillingCadence.Yearly)^[n] ⟨1, 1, 1⟩)) ∧
      (∀ j, j < n → beforeDay ((incFor BillingCadence.Yearly)^[j] ⟨1, 1, 1⟩) ⟨242, 1, 1⟩) ∧
      ¬ beforeDay ((incFor BillingCadence.Yearly)^[n] ⟨1, 1, 1⟩) ⟨242, 1, 1⟩ := by
  refine ⟨by decide, by decide, ?_⟩
  rintro ⟨n, heq, hall, hstop⟩
  simp only [show incFor BillingCadence.Yearly = addYears1 from rfl] at heq hstop
  rw [addYears1_iter_jan1 n] at heq hstop
  have hn : 241 ≤ n := by
    by_contra hlt
    exact hstop (by simp [beforeDay]; omega)
  have hcode : rollForwardNextBillingDate "0001-01-01" BillingCadence.Yearly ⟨242, 1, 1⟩ =
      some "0241-01-01" := by decide
  rw [hcode] at heq
  have hfmt : formatISO ⟨1 + n, 1, 1⟩ = "0241-01-01" := (Option.some.inj heq).symm
  by_cases hy : 1 + n < 10000
  · have hrt := parseDate_formatISO ⟨1 + n, 1, 1⟩ hy (Nat.le_refl 1) (by simp)
      (Nat.le_refl 1) (daysInMonth_pos (1 + n) 1)
    rw [hfmt] at hrt
    have h241 : parseDate "0241-01-01" = some ⟨241, 1, 1⟩ := by decide
    rw [h241] at hrt
    have : (241 : Nat) = 1 + n := congrArg CalDate.y (Option.some.inj hrt)
    omega
  · have hlen := natChars_length_ge 4 (1 + n) (by omega)
    have hdata := congrArg String.data hfmt
    rw [formatISO_data] at hdata
    have hlength : (pad4 (1 + n) ++ '-' :: (pad2 1 ++ '-' :: pad2 1)).length = 10 := by
      rw [hdata]
      decide
    rw [pad4, if_neg (by omega)] at hlength
    simp [List.length_append, pad2] at hlength
    omega

/-- C3 (amended): if the first call returns a non-null date `r` and `r`
reparses to a date that is no longer strictly before the start of today (the
advancement actually caught up, rather than stopping at the iteration cap),
then a second call on `r` with the same today returns `r`. -/
theorem rollForward_idempotent_when_caught_up (d0 : String) (cad : BillingCadence)
    (today : CalDate) (r : String) (c : CalDate)
    (_hfirst : rollForwardNextBillingDate d0 cad today = some r)
    (hparse : parseDate r = some c) (hcaught : ¬ beforeDay c today) :
    rollForwardNextBillingDate r cad today = some r := by
  have hfmt : formatISO c = r := formatISO_of_parseDate hparse
  unfold rollForwardNextBillingDate
  rw [hparse]
  rw [show (match some c with
    | none => none
    | some parsed => some (formatISO (rollLoop (incFor cad) today MAX_ITERATIONS parsed))) =
      some (formatISO (rollLoop (incFor cad) today MAX_ITERATIONS c)) from rfl]
  rw [rollLoop_not_before _ _ _ _ hcaught, hfmt]

/-- Counterexample to C3 as frozen: starting from `0001-01-01` (Monthly) with
today `2025-01-01` the first call exhausts the 240-iteration cap and returns
`"0021-01-01"`, which is still in the past; the second call advances another
240 months instead of returning the same value. -/
theorem rollForward_second_call_differs_at_cap :
    rollForwardNextBillingDate "0001-01-01" BillingCadence.Monthly ⟨2025, 1, 1⟩ =
      some "0021-01-01" ∧
    rollForwardNextBillingDate "0021-01-01" BillingCadence.Monthly ⟨2025, 1, 1⟩ ≠
      some "0021-01-01" := by
  constructor
  · decide
  · decide

/-- C4: for every parseable input date the advancement loop performs at most
240 cadence increments (and, being a total function, always terminates); if
every candidate within the cap is still strictly before the start of today,
the loop stops at the cap and the function returns the 240th — still past —
candidate. -/
theorem rollForward_iteration_cap (s : String) (cad : BillingCadence)
    (today : CalDate) (p : CalDate) (hp : parseDate s = some p) :
    (∃ n, n ≤ MAX_ITERATIONS ∧ rollForwardNextBillingDate s cad today =
      some (formatISO ((incFor cad)^[n] p))) ∧
    ((∀ j, j < MAX_ITERATIONS → beforeDay ((incFor cad)^[j] p) today) →
      rollForwardNextBillingDate s cad today =
        some (formatISO ((incFor cad)^[MAX_ITERATIONS] p))) := by
  have hcode : rollForwardNextBillingDate s cad today =
      some (formatISO (rollLoop (incFor cad) today MAX_ITERATIONS p)) := by
    unfold rollForwardNextBillingDate
    rw [hp]
  constructor
  · obtain ⟨n, hn, heq, _, _⟩ := rollLoop_iterate (incFor cad) today MAX_ITERATIONS p
    exact ⟨n, hn, by rw [hcode, heq]⟩
  · intro hall
    rw [hcode, rollLoop_all_before _ _ _ _ hall]

/-- Witness for C1 at the spec's own example (`2024-01-15`, Monthly, today
`2024-04-10`). -/
theorem rollForward_none_iff_and_capped_loop_witness :
    (rollForwardNextBillingDate "2024-01-15" BillingCadence.Monthly ⟨2024, 4, 10⟩ = none ↔
      parseDate "2024-01-15" = none) ∧
    (∃ n, n ≤ MAX_ITERATIONS ∧
      rollForwardNextBillingDate "2024-01-15" BillingCadence.Monthly ⟨2024, 4, 10⟩ =
        some (formatISO ((incFor BillingCadence.Monthly)^[n] ⟨2024, 1, 15⟩)) ∧
      (∀ j, j < n → beforeDay ((incFor BillingCadence.Monthly)^[j] ⟨2024, 1, 15⟩) ⟨2024, 4, 10⟩) ∧
      (n < MAX_ITERATIONS →
        ¬ beforeDay ((incFor BillingCadence.Monthly)^[n] ⟨2024, 1, 15⟩) ⟨2024, 4, 10⟩)) :=
  ⟨(rollForward_none_iff_and_capped_loop "2024-01-15" BillingCadence.Monthly ⟨2024, 4, 10⟩).1,
    (rollForward_none_iff_and_capped_loop "2024-01-15" BillingCadence.Monthly ⟨2024, 4, 10⟩).2
      ⟨2024, 1, 15⟩ (by decide)⟩

/-- Witness for C3: the first call rolls `2024-01-15` forward to
`2024-04-15`, which reparses on/after today, and the second call is a fixed
point. -/
theorem rollForward_idempotent_when_caught_up_witness :
    rollForwardNextBillingDate "2024-01-15" BillingCadence.Monthly ⟨2024, 4, 10⟩ =
      some "2024-04-15" ∧
    parseDate "2024-04-15" = some ⟨2024, 4, 15⟩ ∧
    ¬ beforeDay ⟨2024, 4, 15⟩ ⟨2024, 4, 10⟩ ∧
    rollForwardNextBillingDate "2024-04-15" BillingCadence.Monthly ⟨2024, 4, 10⟩ =
      some "2024-04-15" :=
  ⟨by decide, by decide, by decide,
    rollForward_idempotent_when_caught_up "2024-01-15" BillingCadence.Monthly
      ⟨2024, 4, 10⟩ "2024-04-15" ⟨2024, 4, 15⟩ (by decide) (by decide) (by decide)⟩

/-- Witness for C4 at a cap-hitting input (`0001-02-03`, Monthly, today
`9999-01-01`). -/
theorem rollForward_iteration_cap_witness :
    parseDate "0001-02-03" = some ⟨1, 2, 3⟩ ∧
    ((∃ n, n ≤ MAX_ITERATIONS ∧
      rollForwardNextBillingDate "0001-02-03" BillingCadence.Monthly ⟨9999, 1, 1⟩ =
        some (formatISO ((incFor BillingCadence.Monthly)^[n] ⟨1, 2, 3⟩))) ∧
    ((∀ j, j < MAX_ITERATIONS →
        beforeDay ((incFor BillingCadence.Monthly)^[j] ⟨1, 2, 3⟩) ⟨9999, 1, 1⟩) →
      rollForwardNextBillingDate "0001-02-03" BillingCadence.Monthly ⟨9999, 1, 1⟩ =
        some (formatISO ((incFor BillingCadence.Monthly)^[MAX_ITERATIONS] ⟨1, 2, 3⟩)))) :=
  ⟨by decide,
    rollForward_iteration_cap "0001-02-03" BillingCadence.Monthly ⟨9999, 1, 1⟩ ⟨1, 2, 3⟩
      (by decide)⟩

/-! ### Auto-advance and linkage claims -/

theorem rollForward_ne_some_empty (s : String) (cad : BillingCadence) (t : CalDate) :
    rollForwardNextBillingDate s cad t ≠ some "" := by
  unfold rollForwardNextBillingDate
  cases h : parseDate s with
  | none => simp
  | some p =>
    intro hc
    exact formatISO_ne_empty _ (Option.some.inj hc)

/-- C9: `autoAdvanceSubscription` leaves every field except `nextBillingDate`
unchanged; it returns the original subscription with `changed = false` when
the roll-forward yields `null` or the stored date, and otherwise a copy whose
only difference is the rolled `nextBillingDate`, with `changed = true`.  (The
embedding is a pure total function, which is the model of "never mutates its
input and never throws".) -/
theorem autoAdvance_cases (sub : Subscription) (today : CalDate) :
    ((autoAdvanceSubscription sub today).1.id = sub.id ∧
      (autoAdvanceSubscription sub today).1.name = sub.name ∧
      (autoAdvanceSubscription sub today).1.cost = sub.cost ∧
      (autoAdvanceSubscription sub today).1.billingCycle = sub.billingCycle ∧
      (autoAdvanceSubscription sub today).1.currency = sub.currency ∧
      (autoAdvanceSubscription sub today).1.providerId = sub.providerId ∧
      (autoAdvanceSubscription sub today).1.providerSlug = sub.providerSlug ∧
      (autoAdvanceSubscription sub today).1.providerName = sub.providerName ∧
      (autoAdvanceSubscription sub today).1.logoPath = sub.logoPath ∧
      (autoAdvanceSubscription sub today).1.fallbackIconKey = sub.fallbackIconKey ∧
      (autoAdvanceSubscription sub today).1.normalizedName = sub.normalizedName) ∧
    (rollForwardNextBillingDate sub.nextBillingDate sub.billingCycle today = none →
      autoAdvanceSubscription sub today = (sub, false)) ∧
    (rollForwardNextBillingDate sub.nextBillingDate sub.billingCycle today =
        some sub.nextBillingDate →
      autoAdvanceSubscription sub today = (sub, false)) ∧
    (∀ r, rollForwardNextBillingDate sub.nextBillingDate sub.billingCycle today = some r →
      r ≠ sub.nextBillingDate →
      autoAdvanceSubscription sub today = ({ sub with nextBillingDate := r }, true)) := by
  unfold autoAdvanceSubscription
  cases h : rollForwardNextBillingDate sub.nextBillingDate sub.billingCycle today with
  | none =>
    exact ⟨⟨rfl, rfl, rfl, rfl, rfl, rfl, rfl, rfl, rfl, rfl, rfl⟩,
      fun _ => rfl, fun hc => absurd hc (by simp),
      fun r hc _ => absurd hc (by simp)⟩
  | some rolled =>
    dsimp only
    have hne : rolled ≠ "" := by
      intro he
      exact rollForward_ne_some_empty sub.nextBillingDate sub.billingCycle today (he ▸ h)
    by_cases hself : rolled = sub.nextBillingDate
    · rw [if_pos (Or.inr hself)]
      refine ⟨⟨rfl, rfl, rfl, rfl, rfl, rfl, rfl, rfl, rfl, rfl, rfl⟩,
        fun hc => absurd hc (by simp), fun _ => rfl, ?_⟩
      intro r hc hrne
      exact absurd ((Option.some.inj hc) ▸ hself) hrne
    · rw [if_neg (by
        rintro (he | he)
        · exact hne he
        · exact hself he)]
      refine ⟨⟨rfl, rfl, rfl, rfl, rfl, rfl, rfl, rfl, rfl, rfl, rfl⟩,
        fun hc => absurd hc (by simp), ?_, ?_⟩
      · intro hc
        exact absurd (Option.some.inj hc) hself
      · intro r hc _
        rw [← Option.some.inj hc]

/-- Witness for C9 on a subscription that actually advances. -/
theorem autoAdvance_cases_witness :
    autoAdvanceSubscription
        ⟨"s1", "Netflix", 10, BillingCadence.Monthly, "2024-01-15",
          none, none, none, none, none, none, none⟩ ⟨2024, 4, 10⟩ =
      ({ (⟨"s1", "Netflix", 10, BillingCadence.Monthly, "2024-01-15",
          none, none, none, none, none, none, none⟩ : Subscription) with
            nextBillingDate := "2024-04-15" }, true) :=
  (autoAdvance_cases
      ⟨"s1", "Netflix", 10, BillingCadence.Monthly, "2024-01-15",
        none, none, none, none, none, none, none⟩ ⟨2024, 4, 10⟩).2.2.2
    "2024-04-15" (by decide) (by decide)

/-- C10: on every write path that computes provider linkage — the shared
create/update resolution, `assignProviderToSubscription`, and the
unauthenticated form submit — the written pair is mutually exclusive: the
fallback icon key is non-null exactly when the provider id is null. -/
theorem provider_linkage_mutually_exclusive :
    (∀ (pid : Option String) (fik : Option FallbackIconKey)
        (lookup : Option SubscriptionProvider) (nm : String) (rand : Nat),
      (resolveProviderLinkage pid fik lookup nm rand).2.isSome =
        (resolveProviderLinkage pid fik lookup nm rand).1.isNone) ∧
    (∀ (sid : String) (pid : Option String)
        (opts : Option (Option FallbackIconKey)) (rand : Nat),
      (assignProviderLinkage sid pid opts rand).2.isSome =
        (assignProviderLinkage sid pid opts rand).1.isNone) ∧
    (∀ (sel : Option SubscriptionProvider) (nm : String) (rand : Nat),
      (submitProviderLinkage sel nm rand).2.isSome =
        (submitProviderLinkage sel nm rand).1.isNone) := by
  refine ⟨?_, ?_, ?_⟩
  · intro pid fik lookup nm rand
    cases pid <;> cases lookup <;> cases fik <;> rfl
  · intro sid pid opts rand
    cases pid <;> rfl
  · intro sel nm rand
    cases sel <;> rfl

/-! ### Fallback-icon claims -/

theorem fallbackKeys_getD_mem : ∀ i, i < 5 →
    FALLBACK_ICON_KEYS.getD i FallbackIconKey.sparkles ∈ FALLBACK_ICON_KEYS := by
  decide

/-- C8 (amended to nonempty seeds): `pickFallbackIconKey` always returns a
member of the fixed five-element enumeration, and for every given nonempty
seed it returns the key at index `hash mod 5` of the folded 31-multiplier
hash, independently of the random draw. -/
theorem pickFallbackIconKey_hash (seed : Option String) (rand rand2 : Nat) :
    pickFallbackIconKey seed rand ∈ FALLBACK_ICON_KEYS ∧
    (∀ s, seed = some s → s ≠ "" →
      pickFallbackIconKey seed rand =
        FALLBACK_ICON_KEYS.getD (hashSeed s % 5) FallbackIconKey.sparkles ∧
      pickFallbackIconKey seed rand = pickFallbackIconKey seed rand2) := by
  constructor
  · unfold pickFallbackIconKey
    cases seed with
    | none => exact fallbackKeys_getD_mem (rand % 5) (Nat.mod_lt _ (by omega))
    | some s =>
      dsimp only
      by_cases h : s = ""
      · rw [if_pos h]
        exact fallbackKeys_getD_mem (rand % 5) (Nat.mod_lt _ (by omega))
      · rw [if_neg h]
        exact fallbackKeys_getD_mem (hashSeed s % 5) (Nat.mod_lt _ (by omega))
  · intro s hs hne
    subst hs
    simp [pickFallbackIconKey, hne]

/-- Counterexample to C8 as frozen: the empty string is a seed that can be
given, but `!seed` is truthy for it, so the code takes the random branch:
with draw 1 the result is `globe`, not the hash-selected key (`sparkles`),
and different draws give different keys for the same seed. -/
theorem pickFallbackIconKey_empty_seed_random :
    pickFallbackIconKey (some "") 1 ≠
      FALLBACK_ICON_KEYS.getD (hashSeed "" % 5) FallbackIconKey.sparkles ∧
    pickFallbackIconKey (some "") 1 ≠ pickFallbackIconKey (some "") 0 := by
  decide

/-- Witness for C8 at the seed `"abc"`. -/
theorem pickFallbackIconKey_hash_witness :
    pickFallbackIconKey (some "abc") 0 ∈ FALLBACK_ICON_KEYS ∧
    pickFallbackIconKey (some "abc") 0 =
      FALLBACK_ICON_KEYS.getD (hashSeed "abc" % 5) FallbackIconKey.sparkles ∧
    pickFallbackIconKey (some "abc") 0 = pickFallbackIconKey (some "abc") 7 :=
  ⟨(pickFallbackIconKey_hash (some "abc") 0 7).1,
    ((pickFallbackIconKey_hash (some "abc") 0 7).2 "abc" rfl (by decide)).1,
    ((pickFallbackIconKey_hash (some "abc") 0 7).2 "abc" rfl (by decide)).2⟩

/-! ### Search claims -/

/-- C6 (amended): a falsy query or a query shorter than the two-unit minimum
produces the empty result list (and, the embedding being total, no error). -/
theorem search_short_query_empty (providers : List SubscriptionProvider)
    (q : String) (h : q = "" ∨ utf16Length q < MIN_QUERY_LENGTH) :
    search providers q = [] := by
  unfold search
  rw [if_pos h]

/-- Counterexample to C6 as frozen: a whitespace-only query of length 2 is
not rejected; its normalised form is empty, so rules 2, 3, 4, 6 are skipped,
but rule 5 (`includes`) is true of the empty trimmed query, so every catalog
entry scores 50 and the result list is not empty. -/
theorem search_whitespace_query_nonempty :
    (∀ c ∈ ("  " : String).data, c.isWhitespace = true) ∧
    utf16Length "  " = 2 ∧
    search [⟨"p1", "netflix", "Netflix", "", none, none⟩] "  " =
      [⟨⟨"p1", "netflix", "Netflix", "", none, none⟩, 50⟩] := by
  refine ⟨by decide, by decide, by decide⟩

/-- Witness for C6 at a one-character query. -/
theorem search_short_query_empty_witness :
    search [⟨"p1", "netflix", "Netflix", "", none, none⟩] "x" = [] :=
  search_short_query_empty [⟨"p1", "netflix", "Netflix", "", none, none⟩] "x"
    (Or.inr (by decide))

theorem mem_insertScored {x a : ProviderSearchResult} {l : List ProviderSearchResult} :
    x ∈ insertScored a l ↔ x = a ∨ x ∈ l := by
  induction l with
  | nil => simp [insertScored]
  | cons b t ih =>
    unfold insertScored
    by_cases h : b.score ≤ a.score
    · simp [h]
    · simp only [h, if_false, List.mem_cons, ih]
      tauto

theorem mem_sortScored {x : ProviderSearchResult} {l : List ProviderSearchResult} :
    x ∈ sortScored l ↔ x ∈ l := by
  induction l with
  | nil => simp [sortScored]
  | cons a t ih => simp [sortScored, mem_insertScored, ih]

theorem pairwise_insertScored {a : ProviderSearchResult} {l : List ProviderSearchResult}
    (h : List.Pairwise (fun x y => y.score ≤ x.score) l) :
    List.Pairwise (fun x y => y.score ≤ x.score) (insertScored a l) := by
  induction l with
  | nil => simp [insertScored]
  | cons b t ih =>
    unfold insertScored
    by_cases hba : b.score ≤ a.score
    · rw [if_pos hba]
      refine List.Pairwise.cons ?_ h
      intro z hz
      rcases List.mem_cons.1 hz with rfl | hzt
      · exact hba
      · exact le_trans (List.rel_of_pairwise_cons h hzt) hba
    · rw [if_neg hba]
      refine List.Pairwise.cons ?_ (ih (List.Pairwise.of_cons h))
      intro z hz
      rcases mem_insertScored.1 hz with rfl | hzt
      · omega
      · exact List.rel_of_pairwise_cons h hzt

theorem sortScored_sorted (l : List ProviderSearchResult) :
    List.Pairwise (fun x y => y.score ≤ x.score) (sortScored l) := by
  induction l with
  | nil => simp [sortScored]
  | cons a t ih => exact pairwise_insertScored ih

theorem insertScored_filter (a : ProviderSearchResult) (l : List ProviderSearchResult)
    (sc : Nat) :
    (insertScored a l).filter (fun r => r.score = sc) =
      ((a :: l).filter (fun r => r.score = sc)) := by
  induction l with
  | nil => rfl
  | cons b t ih =>
    unfold insertScored
    by_cases hba : b.score ≤ a.score
    · rw [if_pos hba]
    · rw [if_neg hba]
      by_cases hbs : b.score = sc
      · have has : ¬ a.score = sc := by omega
        simp [List.filter_cons, hbs, has, ih]
      · simp [List.filter_cons, hbs, ih]

theorem sortScored_filter (l : List ProviderSearchResult) (sc : Nat) :
    (sortScored l).filter (fun r => r.score = sc) = l.filter (fun r => r.score = sc) := by
  induction l with
  | nil => rfl
  | cons a t ih =>
    unfold sortScored
    rw [insertScored_filter, List.filter_cons, List.filter_cons, ih]

/-- C5: for every catalog and query the search result is sorted by strictly
descending-or-equal score, is at most five entries long, and is stable: for
each score value, the results carrying that score are a sublist of the
positively-scored entries in catalog iteration order. -/
theorem search_sorted_stable_truncated (providers : List SubscriptionProvider)
    (q : String) :
    (search providers q).length ≤ 5 ∧
    List.Pairwise (fun x y => y.score ≤ x.score) (search providers q) ∧
    (∀ sc : Nat, List.Sublist
      ((search providers q).filter (fun r => r.score = sc))
      (((providers.map fun p => ProviderSearchResult.mk p (scoreEntry p q)).filter
          (fun e => 0 < e.score)).filter (fun r => r.score = sc))) := by
  unfold search
  by_cases hq : (q = "" ∨ utf16Length q < MIN_QUERY_LENGTH)
  · rw [if_pos hq]
    exact ⟨by simp, by simp, fun sc => by simp⟩
  · rw [if_neg hq]
    refine ⟨by simp, (sortScored_sorted _).sublist (List.take_sublist 5 _), ?_⟩
    intro sc
    have h1 : List.Sublist
        (((sortScored ((providers.map fun p => ProviderSearchResult.mk p (scoreEntry p q)).filter
            (fun e => 0 < e.score))).take 5).filter (fun r => r.score = sc))
        ((sortScored ((providers.map fun p => ProviderSearchResult.mk p (scoreEntry p q)).filter
            (fun e => 0 < e.score))).filter (fun r => r.score = sc)) :=
      List.Sublist.filter _ (List.take_sublist 5 _)
    rw [sortScored_filter] at h1
    exact h1

/-- The score computed by the code coincides with the corrected rule table
(`specScoreCorrected` spells out the first-applicable-rule priority list of
the amended claim; the two are definitionally equal). -/
theorem scoreEntry_eq_specScoreCorrected (p : SubscriptionProvider) (q : String) :
    scoreEntry p q = specScoreCorrected p q := rfl

/-- C2 (amended): for every accepted query (length at least 2), every entry
returned by `search` is a catalog entry scored by the first applicable rule
of the priority table — with rules 2, 3, 4, 6 guarded by a nonempty
normalised query and rule 1 comparing trimmed display names — and carries a
positive score; entries matching no rule (score 0) are never returned. -/
theorem search_scores_follow_rules (providers : List SubscriptionProvider) (q : String)
    (hq : MIN_QUERY_LENGTH ≤ utf16Length q) :
    ∀ r ∈ search providers q, (∃ p ∈ providers, r = ⟨p, scoreEntry p q⟩) ∧
      r.score = specScoreCorrected r.provider q ∧ 0 < r.score := by
  intro r hr
  have hq' : ¬ (q = "" ∨ utf16Length q < MIN_QUERY_LENGTH) := by
    rintro (rfl | hlen)
    · simp [utf16Length, MIN_QUERY_LENGTH] at hq
    · omega
  rw [search, if_neg hq'] at hr
  have hr1 : r ∈ sortScored ((providers.map fun p =>
      ProviderSearchResult.mk p (scoreEntry p q)).filter (fun e => 0 < e.score)) :=
    (List.take_sublist 5 _).subset hr
  rw [mem_sortScored] at hr1
  obtain ⟨hmem, hpos⟩ := List.mem_filter.1 hr1
  obtain ⟨p, hp, rfl⟩ := List.mem_map.1 hmem
  exact ⟨⟨p, hp, rfl⟩, scoreEntry_eq_specScoreCorrected p q, by simpa using hpos⟩

/-- Counterexample to C2 as frozen.  First input: for the accepted query
`"!!"` the normalised query is empty, so by the frozen rules (no guards)
every slug starts with it and the entry should score 80, yet the code
excludes it entirely.  Second input: a display name with surrounding spaces
is trimmed by the code before the rule-1 comparison, so the code scores 120
where the frozen rule 1 (untrimmed display name) yields only 70. -/
theorem search_rules_as_written_fail :
    utf16Length "!!" = 2 ∧
    specScoreAsWritten ⟨"p1", "netflix", "Netflix", "", none, none⟩ "!!" = 80 ∧
    search [⟨"p1", "netflix", "Netflix", "", none, none⟩] "!!" = [] ∧
    utf16Length "netflix" = 7 ∧
    specScoreAsWritten ⟨"p2", "zz", " Netflix ", "", none, none⟩ "netflix" = 70 ∧
    search [⟨"p2", "zz", " Netflix ", "", none, none⟩] "netflix" =
      [⟨⟨"p2", "zz", " Netflix ", "", none, none⟩, 120⟩] := by
  refine ⟨by decide, by decide, by decide, by decide, by decide, by decide⟩

/-- Witness for C2 at the query `"ne"` against a one-entry catalog. -/
theorem search_scores_follow_rules_witness :
    (∃ p ∈ [(⟨"p1", "netflix", "Netflix", "", none, none⟩ : SubscriptionProvider)],
      (⟨⟨"p1", "netflix", "Netflix", "", none, none⟩, 80⟩ : ProviderSearchResult) =
        ⟨p, scoreEntry p "ne"⟩) ∧
    (⟨⟨"p1", "netflix", "Netflix", "", none, none⟩, 80⟩ : ProviderSearchResult).score =
      specScoreCorrected
        (⟨⟨"p1", "netflix", "Netflix", "", none, none⟩, 80⟩ : ProviderSearchResult).provider
        "ne" ∧
    0 < (⟨⟨"p1", "netflix", "Netflix", "", none, none⟩, 80⟩ : ProviderSearchResult).score :=
  search_scores_follow_rules [⟨"p1", "netflix", "Netflix", "", none, none⟩] "ne"
    (by decide) ⟨⟨"p1", "netflix", "Netflix", "", none, none⟩, 80⟩ (by decide)


/-! ### Normalizer claims -/

theorem head_dropWhile_not (p : Char → Bool) (l : List Char) (c : Char)
    (h : (l.dropWhile p).head? = some c) : p c = false := by
  induction l with
  | nil => simp [List.dropWhile] at h
  | cons a t ih =>
    by_cases hp : p a
    · simp [List.dropWhile, hp] at h
      exact ih h
    · simp [List.dropWhile, hp] at h
      subst h
      simp [hp]

theorem mem_squeeze : ∀ (l : List Char), ∀ x ∈ squeeze l, x ∈ l := by
  intro l
  induction l with
  | nil => simp [squeeze]
  | cons a t ih =>
    cases t with
    | nil => simp [squeeze]
    | cons b t2 =>
      intro x hx
      by_cases hc : a = '-' ∧ b = '-'
      · rw [squeeze, if_pos hc] at hx
        exact List.mem_cons_of_mem a (ih x hx)
      · rw [squeeze, if_neg hc] at hx
        rcases List.mem_cons.1 hx with rfl | hx2
        · exact List.mem_cons_self x (b :: t2)
        · exact List.mem_cons_of_mem a (ih x hx2)

theorem head?_squeeze : ∀ (l : List Char), (squeeze l).head? = l.head? := by
  intro l
  induction l with
  | nil => rfl
  | cons a t ih =>
    cases t with
    | nil => rfl
    | cons b t2 =>
      by_cases hc : a = '-' ∧ b = '-'
      · rw [squeeze, if_pos hc, ih]
        simp [hc.1, hc.2]
      · rw [squeeze, if_neg hc]
        rfl

theorem ndd_tail {a : Char} {l : List Char} (h : noDoubleDash (a :: l)) :
    noDoubleDash l := by
  cases l with
  | nil => trivial
  | cons b t => exact h.2

theorem ndd_squeeze : ∀ (l : List Char), noDoubleDash (squeeze l) := by
  intro l
  induction l with
  | nil => trivial
  | cons a t ih =>
    cases t with
    | nil => trivial
    | cons b t2 =>
      by_cases hc : a = '-' ∧ b = '-'
      · rw [squeeze, if_pos hc]
        exact ih
      · rw [squeeze, if_neg hc]
        cases hsq : squeeze (b :: t2) with
        | nil => trivial
        | cons c rest =>
          have hcb : c = b := by
            have hh := head?_squeeze (b :: t2)
            rw [hsq] at hh
            simpa using hh
          subst hcb
          rw [hsq] at ih
          exact ⟨hc, ih⟩

theorem ndd_suffix : ∀ (pre l : List Char), noDoubleDash (pre ++ l) → noDoubleDash l := by
  intro pre
  induction pre with
  | nil => intro l h; exact h
  | cons a pre' ih =>
    intro l h
    exact ih l (ndd_tail h)

theorem ndd_append_left : ∀ (p suf : List Char), noDoubleDash (p ++ suf) → noDoubleDash p := by
  intro p
  induction p with
  | nil => intro suf _; trivial
  | cons a p' ih =>
    intro suf h
    cases p' with
    | nil => trivial
    | cons b p2 => exact ⟨h.1, ih suf h.2⟩

theorem stripTrail_isPrefixOf (l : List Char) : stripTrail l <+: l := by
  unfold stripTrail
  have h2 := List.reverse_prefix.mpr (List.dropWhile_suffix (l := l.reverse) (fun c => c == '-'))
  rwa [List.reverse_reverse] at h2

theorem head?_of_prefix {p l : List Char} {c : Char} (h : p <+: l)
    (hh : p.head? = some c) : l.head? = some c := by
  obtain ⟨suf, rfl⟩ := h
  cases p with
  | nil => simp at hh
  | cons x t => simpa using hh

/-- C7: every normalised name consists only of `[a-z0-9-]` characters, has no
leading or trailing dash and no two consecutive dashes; whitespace-only (in
particular empty) input normalises to the empty string; and the function is
deterministic. -/
theorem normalize_slug_shape (s : String) :
    (∀ c ∈ (normalizeSubscriptionName s).data, isLowerAlnum c = true ∨ c = '-') ∧
    (normalizeSubscriptionName s).data.head? ≠ some '-' ∧
    (normalizeSubscriptionName s).data.getLast? ≠ some '-' ∧
    noDoubleDash (normalizeSubscriptionName s).data ∧
    ((∀ c ∈ s.data, c.isWhitespace = true) → normalizeSubscriptionName s = "") ∧
    (∀ t : String, s = t → normalizeSubscriptionName s = normalizeSubscriptionName t) := by
  have hdata : (normalizeSubscriptionName s).data =
      stripTrail (stripLead (squeeze (((trimList s.data).map lowerChar).map
        (fun c => if isLowerAlnum c then c else '-')))) := rfl
  refine ⟨?_, ?_, ?_, ?_, ?_, fun t ht => ht ▸ rfl⟩
  · intro c hc
    rw [hdata] at hc
    have hc2 : c ∈ stripLead (squeeze (((trimList s.data).map lowerChar).map
        (fun c => if isLowerAlnum c then c else '-'))) :=
      (stripTrail_isPrefixOf _).subset hc
    have hc3 := (List.dropWhile_suffix (fun c => c == '-')).subset hc2
    have hc4 := mem_squeeze _ c hc3
    obtain ⟨x, _, hx⟩ := List.mem_map.1 hc4
    by_cases hal : isLowerAlnum x
    · rw [if_pos hal] at hx
      exact Or.inl (hx ▸ hal)
    · rw [if_neg hal] at hx
      exact Or.inr hx.symm
  · rw [hdata]
    intro hh
    have hh2 := head?_of_prefix (stripTrail_isPrefixOf _) hh
    have := head_dropWhile_not (fun c => c == '-') _ _ hh2
    simp at this
  · rw [hdata]
    intro hh
    rw [← List.head?_reverse] at hh
    rw [show (stripTrail (stripLead (squeeze (((trimList s.data).map lowerChar).map
        (fun c => if isLowerAlnum c then c else '-'))))).reverse =
      (stripLead (squeeze (((trimList s.data).map lowerChar).map
        (fun c => if isLowerAlnum c then c else '-')))).reverse.dropWhile
          (fun c => c == '-') from List.reverse_reverse _] at hh
    have := head_dropWhile_not (fun c => c == '-') _ _ hh
    simp at this
  · rw [hdata]
    have h1 := ndd_squeeze (((trimList s.data).map lowerChar).map
      (fun c => if isLowerAlnum c then c else '-'))
    have h2 : noDoubleDash (stripLead (squeeze (((trimList s.data).map lowerChar).map
        (fun c => if isLowerAlnum c then c else '-')))) := by
      obtain ⟨pre, hpre⟩ := List.dropWhile_suffix (l := squeeze (((trimList s.data).map
        lowerChar).map (fun c => if isLowerAlnum c then c else '-'))) (fun c => c == '-')
      rw [← hpre] at h1
      exact ndd_suffix pre _ h1
    obtain ⟨suf, hsuf⟩ := stripTrail_isPrefixOf (stripLead (squeeze (((trimList s.data).map
      lowerChar).map (fun c => if isLowerAlnum c then c else '-'))))
    rw [← hsuf] at h2
    exact ndd_append_left _ suf h2
  · intro hws
    have htrim : trimList s.data = [] := by
      unfold trimList
      rw [List.dropWhile_eq_nil_iff.mpr (fun a ha => hws a ha)]
      rfl
    unfold normalizeSubscriptionName
    rw [htrim]
    rfl

/-- Witness for C7 at a whitespace-only input. -/
theorem normalize_slug_shape_witness :
    normalizeSubscriptionName "  " = "" :=
  (normalize_slug_shape "  ").2.2.2.2.1 (by decide)

end SubscriptionTracker
